import Mathlib

/-!
# ddbgio/postgres: migration loader and database handle

A shallow embedding of `migration.go` and `postgres.go`.

Conventions of the embedding:

* a Go `string` and a Go `[]byte` are both finite sequences of bytes; the code
  only concatenates them, compares them, tests them for emptiness and searches
  one inside another, so both are represented by `String`, and the conversion
  `string(bytes)` is the identity;
* `fmt.Sprintf` with `%s` verbs only is concatenation;
* a Go `error` is `Option GoError`, `none` being the `nil` error;
* a Go slice is `Slice α`, which keeps the `nil` slice apart from a slice with
  elements;
* the standard library and the driver (`os.ReadDir`, `os.ReadFile`,
  `path.Join`, `*sql.DB`, `*sql.Rows`) are not code of this repository: they
  are parameters of the embedding (`FS`, `SqlDB`, `Rows`);
* the calls to `slog` only write diagnostics and are left out.
-/

namespace Pg

/-! ## Go values -/

/-- Go error values: `errors.New` / `fmt.Errorf` without `%w` give `errorString`,
`fmt.Errorf` with one `%w` gives `wrapError`, which keeps the wrapped error. -/
inductive GoError where
  | errorString (s : String)
  | wrapError (msg : String) (err : GoError)
  deriving DecidableEq, Repr

/-- The method `Error()`. -/
def GoError.Error : GoError → String
  | .errorString s => s
  | .wrapError msg _ => msg

/-- The method `Unwrap()` as seen by `errors.Unwrap`. -/
def GoError.Unwrap : GoError → Option GoError
  | .errorString _ => none
  | .wrapError _ err => some err

/-- Stands for `fmt.Errorf(before ++ "%w", err)`: the message ends with the text of
the wrapped error. -/
def Errorf_w (before : String) (err : GoError) : GoError :=
  .wrapError (before ++ err.Error) err

/-- A Go slice: `none` is the `nil` slice. -/
abbrev Slice (α : Type) := Option (List α)

/-- The elements of a slice, in order; the `nil` slice has none. -/
def Slice.elems {α : Type} : Slice α → List α
  | none => []
  | some l => l

/-- The builtin `len`. -/
def Slice.len {α : Type} (s : Slice α) : Nat := s.elems.length

/-- The builtin `append(s, x)`; the result is never `nil`. -/
def Slice.append {α : Type} (s : Slice α) (x : α) : Slice α :=
  some (s.elems ++ [x])

/-- The values a `database/sql` driver hands over and that an `any` slot can hold
after `Scan`; `nil` is also the zero value of `any`. -/
inductive GoAny where
  | nil
  | int64 (v : Int)
  | float64 (bits : Nat)
  | bool (v : Bool)
  | bytes (v : String)
  | string (v : String)
  | time (unixNano : Int)
  deriving DecidableEq, Repr

/-- A `context.Context`, as far as the driver looks at it: `Err` is non-nil once
the context is cancelled or past its deadline. -/
structure Context where
  Err : Option GoError

/-- The value of `context.Background()`: never cancelled. -/
def Context.Background : Context := { Err := none }

/-- A `*sql.Rows`: the result of `Columns()`, the rows that `Next()` delivers, each
with what `Scan` produces for it, and the result of `Err()` once `Next()` has
returned false. -/
structure Rows where
  Columns : Except GoError (List String)
  scans : List (Except GoError (List GoAny))
  Err : Option GoError

/-- A `*sql.DB`, as a record of its methods. -/
structure SqlDB where
  PingContext : Context → Option GoError
  QueryContext : Context → String → List GoAny → Except GoError Rows
  Close : Option GoError

/-- The method `(*sql.DB).Ping`, which is `PingContext(context.Background())`. -/
def SqlDB.Ping (c : SqlDB) : Option GoError := c.PingContext Context.Background

/-! ## postgres.go -/

def portDefault : String := "5432"

/-- The struct `Postgres`; a nil `Conn` is `none`. -/
structure Postgres where
  Host : String
  User : String
  Password : String
  Name : String
  Sslmode : String
  Port : String
  Conn : Option SqlDB

/-- The method `ConnStr`. The receiver is a pointer and the method assigns to its
`Host` and `Port`, so the handle after the call is returned together with the two
results. -/
def Postgres.ConnStr (db : Postgres) (uriFormat : Bool) :
    Postgres × String × Option GoError :=
  let db := if db.Host = "" then { db with Host := "localhost" } else db
  if db.Password = "" then
    (db, "", some (.errorString "password required"))
  else
    let db := if db.Port = "" then { db with Port := portDefault } else db
    let connStr :=
      if uriFormat then
        let sslParam := if db.Sslmode = "disable" then "?sslmode=disable" else ""
        "postgres://" ++ db.User ++ ":" ++ db.Password ++ "@" ++ db.Host ++ ":"
          ++ db.Port ++ "/" ++ db.Name ++ sslParam
      else
        "host=" ++ db.Host ++ " user=" ++ db.User ++ " password=" ++ db.Password
          ++ " dbname=" ++ db.Name ++ " sslmode=" ++ db.Sslmode ++ " port=" ++ db.Port
    (db, connStr, none)

/-- The outcome of a method that dereferences `db.Conn`: a nil `Conn` makes the
call panic. -/
inductive Outcome (α : Type) where
  | panics
  | returns (a : α)
  deriving DecidableEq

/-- The method `Ping`. The parameter `ctx` is not used in the body: the call is
`db.Conn.Ping()`. -/
def Postgres.Ping (db : Postgres) (_ctx : Context) : Outcome (Option GoError) :=
  match db.Conn with
  | none => .panics
  | some conn =>
    match conn.Ping with
    | some err => .returns (some (Errorf_w "unable to ping db: " err))
    | none => .returns none

/-- The method `Execute`. -/
def Postgres.Execute (_db : Postgres) (_ctx : Context) (_query : String)
    (_vars : List GoAny) : Int × Int × Option GoError :=
  (0, 0, some (.errorString "not implemented, use Query instead"))

/-! ## The standard library, as far as `migration.go` uses it -/

/-- Whether the second list starts the first one (`strings.HasPrefix` on the
characters). -/
def startsWith : List Char → List Char → Bool
  | _, [] => true
  | [], _ :: _ => false
  | a :: s, b :: p => a = b && startsWith s p

/-- Whether the second list occurs in the first one as a contiguous block. -/
def containsChars : List Char → List Char → Bool
  | [], sub => startsWith [] sub
  | c :: s, sub => startsWith (c :: s) sub || containsChars s sub

/-- The function `strings.Contains`: `substr` occurs within `s`. -/
def stringsContains (s substr : String) : Bool :=
  containsChars s.data substr.data

/-- An `os.DirEntry`, as far as the loader looks at it. -/
structure DirEntry where
  Name : String
  IsDir : Bool
  deriving DecidableEq, Repr

/-- The file system the loader runs against: `os.ReadDir`, `os.ReadFile` and
`path.Join`. -/
structure FS where
  ReadDir : String → Except GoError (List DirEntry)
  ReadFile : String → Except GoError String
  Join : String → String → String

/-- A call into the file system. -/
inductive FsCall where
  | ReadDir (name : String)
  | ReadFile (name : String)
  deriving DecidableEq, Repr

/-! ## migration.go -/

/-- The struct `Migration`. -/
structure Migration where
  Direction : String
  Filename : String
  Content : String
  deriving DecidableEq, Repr

/-- What a call of `Migrations` does: the two results and, in order, the calls it
made into the file system. -/
structure MigrationsResult where
  migrations : Slice Migration
  err : Option GoError
  calls : List FsCall
  deriving DecidableEq

/-- The loop `for _, file := range files` of `Migrations` over the entries still to
visit, with the current value of `migrations`, followed by the code after the
loop. -/
def Migrations.loop (fs : FS) (migrationsDir direction : String) :
    List DirEntry → Slice Migration → List FsCall → MigrationsResult
  | [], migrations, calls =>
    if migrations.len = 0 then
      { migrations := none
        err := some (.errorString ("no files found with ending '" ++ direction ++ ".sql'"))
        calls := calls }
    else
      { migrations := migrations, err := none, calls := calls }
  | file :: rest, migrations, calls =>
    if file.IsDir then
      Migrations.loop fs migrationsDir direction rest migrations calls
    else
      let expectedEnding := direction ++ ".sql"
      if stringsContains file.Name expectedEnding then
        let name := fs.Join migrationsDir file.Name
        let calls := calls ++ [.ReadFile name]
        match fs.ReadFile name with
        | .error err =>
          { migrations := none
            err := some (Errorf_w ("unable to read file '" ++ file.Name ++ "': ") err)
            calls := calls }
        | .ok bytes =>
          if bytes.length = 0 then
            { migrations := none
              err := some (.errorString ("empty file '" ++ file.Name ++ "'"))
              calls := calls }
          else
            let migration : Migration :=
              { Direction := direction, Filename := file.Name, Content := bytes }
            Migrations.loop fs migrationsDir direction rest (migrations.append migration) calls
      else
        Migrations.loop fs migrationsDir direction rest migrations calls

/-- The function `Migrations`. -/
def Migrations (fs : FS) (migrationsDir direction : String) : MigrationsResult :=
  if direction = "up" ∨ direction = "down" then
    match fs.ReadDir migrationsDir with
    | .error err =>
      { migrations := none
        err := some (Errorf_w ("unable to read directory '" ++ migrationsDir ++ "': ") err)
        calls := [.ReadDir migrationsDir] }
    | .ok files =>
      if files.length = 0 then
        { migrations := none
          err := some (.errorString ("no files found in directory '" ++ migrationsDir ++ "'"))
          calls := [.ReadDir migrationsDir] }
      else
        Migrations.loop fs migrationsDir direction files none [.ReadDir migrationsDir]
  else
    { migrations := none
      err := some (.errorString
        ("invalid direction '" ++ direction ++ "', must be 'up' or 'down'"))
      calls := [] }

/-! ## postgres.go: `Query` -/

/-- A Go `map[string]any`: the value stored under each key, `none` for a key that
is not in the map. -/
abbrev GoMap := String → Option GoAny

/-- The value of `make(map[string]any)`. -/
def GoMap.empty : GoMap := fun _ => none

/-- The assignment `m[k] = v`. -/
def GoMap.set (m : GoMap) (k : String) (v : GoAny) : GoMap :=
  fun key => if key = k then some v else m key

/-- A successful `rows.Scan(valPtrs...)`: the values of the row are stored through
the pointers, position by position. -/
def storeThrough : List GoAny → List GoAny → List GoAny
  | [], _ => []
  | v :: vals, [] => v :: vals
  | _ :: vals, r :: row => r :: storeThrough vals row

/-- The loop `for i, name := range colNames` of `Query`, from index `i` on. The
slice `vals` has `len(colNames)` elements, so `vals[i]` is always in range. -/
def Query.fill (vals : List GoAny) : Nat → List String → GoMap → GoMap
  | _, [], result => result
  | i, name :: rest, result =>
    Query.fill vals (i + 1) rest (result.set name (vals.getD i .nil))

/-- The loop `for rows.Next()` of `Query` over the rows still to come, with the
current value of `results`, followed by the check of `rows.Err()`. -/
def Query.loop (colNames : List String) (rowsErr : Option GoError) :
    List (Except GoError (List GoAny)) → Slice GoMap → Slice GoMap × Option GoError
  | [], results =>
    match rowsErr with
    | some err => (none, some (Errorf_w "unable to get rows: " err))
    | none => (results, none)
  | scan :: rest, results =>
    let width := colNames.length
    let vals := List.replicate width GoAny.nil
    match scan with
    | .error err => (none, some (Errorf_w "unable to scan rows: " err))
    | .ok row =>
      let vals := storeThrough vals row
      let result := Query.fill vals 0 colNames GoMap.empty
      Query.loop colNames rowsErr rest (results.append result)

/-- The method `Query`. -/
def Postgres.Query (db : Postgres) (ctx : Context) (query : String)
    (vars : List GoAny) : Outcome (Slice GoMap × Option GoError) :=
  match db.Conn with
  | none => .panics
  | some conn =>
    match conn.QueryContext ctx query vars with
    | .error err => .returns (none, some (Errorf_w "unable to query db: " err))
    | .ok rows =>
      match rows.Columns with
      | .error err => .returns (none, some (Errorf_w "unable to get columns: " err))
      | .ok colNames => .returns (Query.loop colNames rows.Err rows.scans none)


/-! ## Vocabulary of the properties -/

/-- The host written into a connection string. -/
def hostOrDefault (db : Postgres) : String :=
  if db.Host = "" then "localhost" else db.Host

/-- The port written into a connection string. -/
def portOrDefault (db : Postgres) : String :=
  if db.Port = "" then "5432" else db.Port

/-- The query part of the URI form. -/
def sslSuffix (db : Postgres) : String :=
  if db.Sslmode = "disable" then "?sslmode=disable" else ""

/-- An entry that is not a directory and whose name contains `d ++ ".sql"`. -/
def matchesDirection (d : String) (e : DirEntry) : Bool :=
  !e.IsDir && stringsContains e.Name (d ++ ".sql")

/-- The file of an entry can be read and holds at least one byte. -/
def readableNonEmpty (fs : FS) (dir : String) (e : DirEntry) : Bool :=
  match fs.ReadFile (fs.Join dir e.Name) with
  | .ok bytes => bytes.length != 0
  | .error _ => false

/-- The record `m` is the one of entry `e` for direction `d`. -/
def IsRecordOf (fs : FS) (dir d : String) (e : DirEntry) (m : Migration) : Prop :=
  m.Direction = d ∧ m.Filename = e.Name ∧ fs.ReadFile (fs.Join dir e.Name) = .ok m.Content

/-! ## Concrete inputs -/

def exampleHandle : Postgres :=
  { Host := "", User := "u", Password := "p", Name := "db", Sslmode := "disable",
    Port := "", Conn := none }

def noPasswordHandle : Postgres :=
  { Host := "db.internal", User := "u", Password := "", Name := "db",
    Sslmode := "require", Port := "6543", Conn := none }

/-- A context that has been cancelled. -/
def cancelledCtx : Context := { Err := some (.errorString "context canceled") }

/-- A connection whose ping fails exactly when the context it receives is done, and
then with the error of that context. -/
def ctxAwareDB : SqlDB :=
  { PingContext := fun ctx => ctx.Err
    QueryContext := fun _ _ _ => .error (.errorString "sql: database is closed")
    Close := none }

def openHandle : Postgres :=
  { Host := "localhost", User := "u", Password := "p", Name := "db",
    Sslmode := "disable", Port := "5432", Conn := some ctxAwareDB }

/-- The error of a path that does not exist. -/
def noSuchFile (name : String) : GoError :=
  .errorString ("open " ++ name ++ ": no such file or directory")

/-- A file system with four directories: `migrations` holds files of both
directions, a sub-directory whose name matches, a backup file and a text file;
`empty` holds nothing; in `broken` the second `up` file has no bytes; `downonly`
holds one `down` file and a sub-directory. Paths are joined with a slash. -/
def exampleFS : FS :=
  { ReadDir := fun name =>
      if name = "migrations" then
        .ok [⟨"001_init.down.sql", false⟩, ⟨"001_init.up.sql", false⟩,
          ⟨"archive.up.sql", true⟩, ⟨"foo.up.sql.bak", false⟩, ⟨"notes.txt", false⟩]
      else if name = "empty" then .ok []
      else if name = "broken" then
        .ok [⟨"001.up.sql", false⟩, ⟨"002.up.sql", false⟩, ⟨"003.up.sql", false⟩]
      else if name = "downonly" then
        .ok [⟨"001.down.sql", false⟩, ⟨"old.up.sql", true⟩]
      else .error (noSuchFile name)
    ReadFile := fun name =>
      if name = "migrations/001_init.down.sql" then .ok "DROP TABLE t;"
      else if name = "migrations/001_init.up.sql" then .ok "CREATE TABLE t (id int);"
      else if name = "migrations/foo.up.sql.bak" then .ok "SELECT 1;"
      else if name = "migrations/notes.txt" then .ok "todo"
      else if name = "broken/001.up.sql" then .ok "CREATE TABLE a ();"
      else if name = "broken/002.up.sql" then .ok ""
      else if name = "broken/003.up.sql" then .ok "CREATE TABLE c ();"
      else if name = "downonly/001.down.sql" then .ok "DROP TABLE a;"
      else .error (noSuchFile name)
    Join := fun dir name => dir ++ "/" ++ name }

/-- A file system in which no directory and no file can be read. -/
def unreadableFS : FS :=
  { ReadDir := fun name => .error (noSuchFile name)
    ReadFile := fun name => .error (noSuchFile name)
    Join := fun dir name => dir ++ "/" ++ name }

/-- The maps a call of `Query` returned; none when it panicked. -/
def Outcome.maps : Outcome (Slice GoMap × Option GoError) → List GoMap
  | .panics => []
  | .returns (results, _) => results.elems

/-- A connection that answers one query with two rows of three columns, the first
and the last column carrying the same name, and every other query with the same
columns and no row. -/
def catalogDB : SqlDB :=
  { PingContext := fun _ => none
    QueryContext := fun _ query _ =>
      if query = "SELECT datname, oid, upper(datname) AS datname FROM pg_database" then
        .ok { Columns := .ok ["datname", "oid", "datname"]
              scans := [.ok [.bytes "postgres", .int64 5, .bytes "POSTGRES"],
                .ok [.bytes "template1", .int64 1, .bytes "TEMPLATE1"]]
              Err := none }
      else
        .ok { Columns := .ok ["datname", "oid", "datname"], scans := [], Err := none }
    Close := none }

def catalogHandle : Postgres :=
  { Host := "localhost", User := "u", Password := "p", Name := "db",
    Sslmode := "disable", Port := "5432", Conn := some catalogDB }

/-! # Theorems -/

/-! ## Connection strings -/

/-- C1: with a non-empty password, `ConnStr(true)` returns a nil error and the URI
`postgres://User:Password@H:P/Name` followed by `?sslmode=disable` exactly when
`Sslmode` is `disable`, with `H` and `P` the host and port or their defaults. -/
theorem ConnStr_uri (db : Postgres) (h : db.Password ≠ "") :
    (db.ConnStr true).2 =
      ("postgres://" ++ db.User ++ ":" ++ db.Password ++ "@" ++ hostOrDefault db ++ ":"
        ++ portOrDefault db ++ "/" ++ db.Name ++ sslSuffix db, none) := by
  unfold Postgres.ConnStr hostOrDefault portOrDefault sslSuffix portDefault
  by_cases hH : db.Host = "" <;> by_cases hP : db.Port = "" <;>
    by_cases hS : db.Sslmode = "disable" <;> simp [hH, hP, hS, h]

/-- C1 on the handle of the specification: host and port empty, `sslmode=disable`. -/
theorem ConnStr_uri_witness :
    exampleHandle.Password ≠ "" ∧
      (exampleHandle.ConnStr true).2 =
        ("postgres://u:p@localhost:5432/db?sslmode=disable", none) :=
  ⟨by decide, (ConnStr_uri exampleHandle (by decide)).trans (by decide)⟩

/-- C8: with a non-empty password, `ConnStr(false)` returns a nil error and the
key-value string `host=H user=User password=Password dbname=Name sslmode=Sslmode
port=P`, with `H` and `P` the host and port or their defaults. -/
theorem ConnStr_keyValue (db : Postgres) (h : db.Password ≠ "") :
    (db.ConnStr false).2 =
      ("host=" ++ hostOrDefault db ++ " user=" ++ db.User ++ " password=" ++ db.Password
        ++ " dbname=" ++ db.Name ++ " sslmode=" ++ db.Sslmode ++ " port="
        ++ portOrDefault db, none) := by
  unfold Postgres.ConnStr hostOrDefault portOrDefault portDefault
  by_cases hH : db.Host = "" <;> by_cases hP : db.Port = "" <;> simp [hH, hP, h]

/-- C8 on the handle of the specification. -/
theorem ConnStr_keyValue_witness :
    exampleHandle.Password ≠ "" ∧
      (exampleHandle.ConnStr false).2 =
        ("host=localhost user=u password=p dbname=db sslmode=disable port=5432", none) :=
  ⟨by decide, (ConnStr_keyValue exampleHandle (by decide)).trans (by decide)⟩

/-- C2: in both formats `ConnStr` returns a non-nil error exactly when the password
is empty, a nil error exactly when it is not, and an empty password gives the empty
string with the error `password required`, whatever the other fields hold. -/
theorem ConnStr_fails_iff_no_password (db : Postgres) (uriFormat : Bool) :
    ((db.ConnStr uriFormat).2.2 ≠ none ↔ db.Password = "") ∧
    ((db.ConnStr uriFormat).2.2 = none ↔ db.Password ≠ "") ∧
    (db.Password = "" ↔
      (db.ConnStr uriFormat).2 = ("", some (.errorString "password required"))) := by
  unfold Postgres.ConnStr
  by_cases hH : db.Host = "" <;> by_cases hW : db.Password = "" <;> simp [hH, hW]

/-- C2 on a handle with every field set but the password, in both formats. -/
theorem ConnStr_fails_iff_no_password_witness :
    (noPasswordHandle.ConnStr true).2 = ("", some (.errorString "password required")) ∧
    (noPasswordHandle.ConnStr false).2 = ("", some (.errorString "password required")) :=
  ⟨(ConnStr_fails_iff_no_password noPasswordHandle true).2.2.mp (by decide),
   (ConnStr_fails_iff_no_password noPasswordHandle false).2.2.mp (by decide)⟩

/-! ## Ping and Execute -/

/-- C10: `Execute` returns `(0, 0, err)` with the fixed error `not implemented, use
Query instead`, for every handle, context, query text and parameter list. -/
theorem Execute_not_implemented (db : Postgres) (ctx : Context) (query : String)
    (vars : List GoAny) :
    db.Execute ctx query vars =
        (0, 0, some (.errorString "not implemented, use Query instead")) ∧
      (db.Execute ctx query vars).2.2 ≠ none :=
  ⟨rfl, by simp [Postgres.Execute]⟩

/-- The result of `Ping` does not depend on the context it is given. -/
theorem Ping_ctx_irrelevant (db : Postgres) (ctx ctx2 : Context) :
    db.Ping ctx = db.Ping ctx2 := rfl

/-- With an open connection, `Ping` returns nil when `(*sql.DB).Ping` does, and
otherwise an error that wraps the one of the driver. -/
theorem Ping_wraps_driver_error (db : Postgres) (conn : SqlDB) (ctx : Context)
    (hconn : db.Conn = some conn) :
    (conn.Ping = none → db.Ping ctx = .returns none) ∧
      (∀ err, conn.Ping = some err →
        db.Ping ctx = .returns (some (.wrapError ("unable to ping db: " ++ err.Error) err))) := by
  constructor
  · intro h; simp [Postgres.Ping, hconn, h]
  · intro err h; simp [Postgres.Ping, hconn, h, Errorf_w]

/-- C9 at a cancelled context: the connection of `openHandle` fails a ping made
with the cancelled context, and `Ping` with that context returns a nil error. -/
theorem Ping_cancelled_ctx_returns_nil :
    cancelledCtx.Err ≠ none ∧
      ctxAwareDB.PingContext cancelledCtx = some (.errorString "context canceled") ∧
      openHandle.Ping cancelledCtx = .returns none :=
  ⟨by decide, rfl, rfl⟩

/-! ## Substring search -/

theorem startsWith_iff (s p : List Char) : startsWith s p = true ↔ p <+: s := by
  induction s generalizing p with
  | nil => cases p <;> simp [startsWith]
  | cons a s ih =>
    cases p with
    | nil => simp [startsWith]
    | cons b p =>
      simp only [startsWith, Bool.and_eq_true, decide_eq_true_eq, ih, List.cons_prefix_cons]
      exact ⟨fun h => ⟨h.1.symm, h.2⟩, fun h => ⟨h.1.symm, h.2⟩⟩

/-- The search of `strings.Contains` finds exactly the contiguous occurrences. -/
theorem containsChars_iff (s sub : List Char) : containsChars s sub = true ↔ sub <:+: s := by
  induction s with
  | nil => simp [containsChars, startsWith_iff]
  | cons c s ih =>
    simp only [containsChars, Bool.or_eq_true, startsWith_iff, ih, List.infix_cons_iff]

/-! ## The loop of `Migrations` -/

theorem Slice_eq_some_of_len_ne_zero {α : Type} (s : Slice α) (h : s.len ≠ 0) :
    s = some s.elems := by
  cases s with
  | none => simp [Slice.len, Slice.elems] at h
  | some l => rfl

theorem Migrations_loop_ok (fs : FS) (dir d : String) :
    ∀ (files : List DirEntry) (ms : Slice Migration) (calls : List FsCall),
      (∀ e ∈ files, matchesDirection d e = true → readableNonEmpty fs dir e = true) →
      (ms.len ≠ 0 ∨ ∃ e ∈ files, matchesDirection d e = true) →
      (Migrations.loop fs dir d files ms calls).err = none ∧
        ∃ new, (Migrations.loop fs dir d files ms calls).migrations = some (ms.elems ++ new) ∧
          List.Forall₂ (IsRecordOf fs dir d) (files.filter (matchesDirection d)) new := by
  intro files
  induction files with
  | nil =>
    intro ms calls _ hne
    have hlen : ms.len ≠ 0 := by simpa using hne
    refine ⟨by simp [Migrations.loop, hlen], [], ?_, by simp⟩
    simp only [Migrations.loop, hlen, if_false, List.append_nil]
    exact Slice_eq_some_of_len_ne_zero ms hlen
  | cons file rest ih =>
    intro ms calls hgood hne
    have hrest : ∀ e ∈ rest, matchesDirection d e = true → readableNonEmpty fs dir e = true :=
      fun e he => hgood e (List.mem_cons_of_mem _ he)
    by_cases hm : matchesDirection d file = true
    · have hr := hgood file (List.mem_cons_self _ _) hm
      have hm2 := hm
      simp only [matchesDirection, Bool.and_eq_true, Bool.not_eq_true'] at hm2
      obtain ⟨hdir, hcont⟩ := hm2
      unfold readableNonEmpty at hr
      cases hread : fs.ReadFile (fs.Join dir file.Name) with
      | error err => simp [hread] at hr
      | ok bytes =>
        simp only [hread, bne_iff_ne, ne_eq] at hr
        have hstep : Migrations.loop fs dir d (file :: rest) ms calls =
            Migrations.loop fs dir d rest
              (ms.append { Direction := d, Filename := file.Name, Content := bytes })
              (calls ++ [.ReadFile (fs.Join dir file.Name)]) := by
          simp [Migrations.loop, hdir, hcont, hread, hr]
        have hlen : (ms.append
            ({ Direction := d, Filename := file.Name, Content := bytes } : Migration)).len ≠ 0 := by
          simp [Slice.append, Slice.len, Slice.elems]
        obtain ⟨herr, new, hnew, hall⟩ := ih _ (calls ++ [.ReadFile (fs.Join dir file.Name)])
          hrest (Or.inl hlen)
        rw [hstep]
        refine ⟨herr, { Direction := d, Filename := file.Name, Content := bytes } :: new, ?_, ?_⟩
        · rw [hnew]; simp [Slice.append, Slice.elems]
        · rw [List.filter_cons_of_pos hm]
          exact List.Forall₂.cons ⟨rfl, rfl, hread⟩ hall
    · have hstep : Migrations.loop fs dir d (file :: rest) ms calls =
          Migrations.loop fs dir d rest ms calls := by
        simp only [matchesDirection, Bool.and_eq_true, Bool.not_eq_true', not_and,
          Bool.not_eq_true] at hm
        cases hdir : file.IsDir with
        | true => simp [Migrations.loop, hdir]
        | false => simp [Migrations.loop, hdir, hm hdir]
      have hne2 : ms.len ≠ 0 ∨ ∃ e ∈ rest, matchesDirection d e = true := by
        rcases hne with h | ⟨e, he, hme⟩
        · exact Or.inl h
        · rcases List.mem_cons.mp he with rfl | he2
          · exact absurd hme hm
          · exact Or.inr ⟨e, he2, hme⟩
      obtain ⟨herr, new, hnew, hall⟩ := ih ms calls hrest hne2
      rw [hstep]
      refine ⟨herr, new, hnew, ?_⟩
      rw [List.filter_cons_of_neg hm]
      exact hall

theorem Migrations_loop_fails (fs : FS) (dir d : String) :
    ∀ (files : List DirEntry) (ms : Slice Migration) (calls : List FsCall),
      (∃ e ∈ files, matchesDirection d e = true ∧ readableNonEmpty fs dir e = false) →
      (Migrations.loop fs dir d files ms calls).migrations = none ∧
        (Migrations.loop fs dir d files ms calls).err ≠ none := by
  intro files
  induction files with
  | nil => intro ms calls h; simp at h
  | cons file rest ih =>
    intro ms calls hbad
    cases hdir : file.IsDir with
    | true =>
      have hrest : ∃ e ∈ rest, matchesDirection d e = true ∧ readableNonEmpty fs dir e = false := by
        obtain ⟨e, he, hme, hre⟩ := hbad
        rcases List.mem_cons.mp he with rfl | he2
        · simp [matchesDirection, hdir] at hme
        · exact ⟨e, he2, hme, hre⟩
      simpa [Migrations.loop, hdir] using ih ms calls hrest
    | false =>
      cases hcont : stringsContains file.Name (d ++ ".sql") with
      | false =>
        have hrest : ∃ e ∈ rest,
            matchesDirection d e = true ∧ readableNonEmpty fs dir e = false := by
          obtain ⟨e, he, hme, hre⟩ := hbad
          rcases List.mem_cons.mp he with rfl | he2
          · simp [matchesDirection, hcont] at hme
          · exact ⟨e, he2, hme, hre⟩
        simpa [Migrations.loop, hdir, hcont] using ih ms calls hrest
      | true =>
        cases hread : fs.ReadFile (fs.Join dir file.Name) with
        | error err => simp [Migrations.loop, hdir, hcont, hread]
        | ok bytes =>
          by_cases hz : bytes.length = 0
          · simp [Migrations.loop, hdir, hcont, hread, hz]
          · have hrest : ∃ e ∈ rest,
                matchesDirection d e = true ∧ readableNonEmpty fs dir e = false := by
              obtain ⟨e, he, hme, hre⟩ := hbad
              rcases List.mem_cons.mp he with rfl | he2
              · simp [readableNonEmpty, hread, hz] at hre
              · exact ⟨e, he2, hme, hre⟩
            simpa [Migrations.loop, hdir, hcont, hread, hz] using ih _ _ hrest

theorem Migrations_loop_no_match (fs : FS) (dir d : String) :
    ∀ (files : List DirEntry) (calls : List FsCall),
      (∀ e ∈ files, matchesDirection d e = false) →
      Migrations.loop fs dir d files none calls =
        { migrations := none
          err := some (.errorString ("no files found with ending '" ++ d ++ ".sql'"))
          calls := calls } := by
  intro files
  induction files with
  | nil => intro calls _; simp [Migrations.loop, Slice.len, Slice.elems]
  | cons file rest ih =>
    intro calls hno
    have h1 := hno file (List.mem_cons_self _ _)
    have hrest : ∀ e ∈ rest, matchesDirection d e = false :=
      fun e he => hno e (List.mem_cons_of_mem _ he)
    cases hdir : file.IsDir with
    | true => simpa [Migrations.loop, hdir] using ih calls hrest
    | false =>
      have hcont : stringsContains file.Name (d ++ ".sql") = false := by
        simpa [matchesDirection, hdir] using h1
      simpa [Migrations.loop, hdir, hcont] using ih calls hrest

theorem Migrations_loop_success_nonempty (fs : FS) (dir d : String) :
    ∀ (files : List DirEntry) (ms : Slice Migration) (calls : List FsCall),
      (Migrations.loop fs dir d files ms calls).err = none →
      (Migrations.loop fs dir d files ms calls).migrations.len ≠ 0 := by
  intro files
  induction files with
  | nil =>
    intro ms calls h
    by_cases hlen : ms.len = 0
    · simp [Migrations.loop, hlen] at h
    · simp [Migrations.loop, hlen]
  | cons file rest ih =>
    intro ms calls
    cases hdir : file.IsDir with
    | true => simpa [Migrations.loop, hdir] using ih ms calls
    | false =>
      cases hcont : stringsContains file.Name (d ++ ".sql") with
      | false => simpa [Migrations.loop, hdir, hcont] using ih ms calls
      | true =>
        cases hread : fs.ReadFile (fs.Join dir file.Name) with
        | error err => simp [Migrations.loop, hdir, hcont, hread]
        | ok bytes =>
          by_cases hz : bytes.length = 0
          · simp [Migrations.loop, hdir, hcont, hread, hz]
          · simpa [Migrations.loop, hdir, hcont, hread, hz] using ih _ _

/-! ## `Migrations` -/

/-- C3: for `d` one of `up`, `down`, a readable and non-empty listing in which every
non-directory entry whose name contains `d ++ ".sql"` can be read and is not empty,
and with at least one such entry: `Migrations` returns a nil error and one record
per such entry, in listing order, with `Direction = d`, the name of the entry and
the bytes of its file. The entries selected are the non-directories whose name has
`d ++ ".sql"` as a contiguous part, so `foo.up.sql.bak` is selected for `up`. -/
theorem Migrations_returns_matching (fs : FS) (dir d : String) (files : List DirEntry)
    (hd : d = "up" ∨ d = "down") (hread : fs.ReadDir dir = .ok files) (hne : files ≠ [])
    (hgood : ∀ e ∈ files, matchesDirection d e = true → readableNonEmpty fs dir e = true)
    (hex : ∃ e ∈ files, matchesDirection d e = true) :
    (Migrations fs dir d).err = none ∧
      (∃ ms, (Migrations fs dir d).migrations = some ms ∧
        List.Forall₂ (IsRecordOf fs dir d) (files.filter (matchesDirection d)) ms) ∧
      (∀ e : DirEntry, matchesDirection d e = true ↔
        (e.IsDir = false ∧ (d ++ ".sql").data <:+: e.Name.data)) ∧
      matchesDirection "up" ⟨"foo.up.sql.bak", false⟩ = true := by
  have hlen : files.length ≠ 0 := by simpa using hne
  have hM : Migrations fs dir d = Migrations.loop fs dir d files none [.ReadDir dir] := by
    simp [Migrations, hd, hread, hlen]
  obtain ⟨herr, new, hnew, hall⟩ :=
    Migrations_loop_ok fs dir d files none [.ReadDir dir] hgood (Or.inr hex)
  refine ⟨by rw [hM]; exact herr, ⟨new, ?_, hall⟩, ?_, by decide⟩
  · rw [hM, hnew]; simp [Slice.elems]
  · intro e
    simp [matchesDirection, stringsContains, containsChars_iff]

/-- C3 on the directory `migrations` of `exampleFS` for `up`: the two `up` files are
returned, the backup file among them; the `down` file, the sub-directory
`archive.up.sql` and the text file are not. -/
theorem Migrations_returns_matching_witness :
    (Migrations exampleFS "migrations" "up").err = none ∧
      (Migrations exampleFS "migrations" "up").migrations =
        some [⟨"up", "001_init.up.sql", "CREATE TABLE t (id int);"⟩,
          ⟨"up", "foo.up.sql.bak", "SELECT 1;"⟩] ∧
      ∃ ms, (Migrations exampleFS "migrations" "up").migrations = some ms ∧
        List.Forall₂ (IsRecordOf exampleFS "migrations" "up")
          [⟨"001_init.up.sql", false⟩, ⟨"foo.up.sql.bak", false⟩] ms :=
  ⟨by decide, by decide,
    (Migrations_returns_matching exampleFS "migrations" "up"
      [⟨"001_init.down.sql", false⟩, ⟨"001_init.up.sql", false⟩,
        ⟨"archive.up.sql", true⟩, ⟨"foo.up.sql.bak", false⟩, ⟨"notes.txt", false⟩]
      (Or.inl rfl) rfl (by decide) (by decide) (by decide)).2.1⟩

/-- C4: for `d` one of `up`, `down` and a readable listing, if one non-directory
entry whose name contains `d ++ ".sql"` cannot be read or has zero bytes, then
`Migrations` returns the nil slice and a non-nil error. -/
theorem Migrations_all_or_nothing (fs : FS) (dir d : String) (files : List DirEntry)
    (hd : d = "up" ∨ d = "down") (hread : fs.ReadDir dir = .ok files)
    (hbad : ∃ e ∈ files, matchesDirection d e = true ∧
      ((∃ err, fs.ReadFile (fs.Join dir e.Name) = .error err) ∨
        ∃ bytes, fs.ReadFile (fs.Join dir e.Name) = .ok bytes ∧ bytes.length = 0)) :
    (Migrations fs dir d).migrations = none ∧ (Migrations fs dir d).err ≠ none := by
  obtain ⟨e, he, hme, hre⟩ := hbad
  have hlen : files.length ≠ 0 := by
    intro h0
    rw [List.length_eq_zero.mp h0] at he
    simp at he
  have hM : Migrations fs dir d = Migrations.loop fs dir d files none [.ReadDir dir] := by
    simp [Migrations, hd, hread, hlen]
  have hre2 : readableNonEmpty fs dir e = false := by
    rcases hre with ⟨err, h⟩ | ⟨bytes, h, hz⟩
    · simp [readableNonEmpty, h]
    · simp [readableNonEmpty, h, hz]
  rw [hM]
  exact Migrations_loop_fails fs dir d files none _ ⟨e, he, hme, hre2⟩

/-- C4 on the directory `broken` of `exampleFS`: the first `up` file is read, the
second one is empty, and no record is returned. -/
theorem Migrations_all_or_nothing_witness :
    exampleFS.ReadFile (exampleFS.Join "broken" "001.up.sql") = .ok "CREATE TABLE a ();" ∧
      exampleFS.ReadFile (exampleFS.Join "broken" "002.up.sql") = .ok "" ∧
      (Migrations exampleFS "broken" "up").err =
        some (.errorString "empty file '002.up.sql'") ∧
      ((Migrations exampleFS "broken" "up").migrations = none ∧
        (Migrations exampleFS "broken" "up").err ≠ none) :=
  ⟨rfl, rfl, by decide,
    Migrations_all_or_nothing exampleFS "broken" "up"
      [⟨"001.up.sql", false⟩, ⟨"002.up.sql", false⟩, ⟨"003.up.sql", false⟩]
      (Or.inl rfl) rfl
      ⟨⟨"002.up.sql", false⟩, by decide, by decide, Or.inr ⟨"", rfl, by decide⟩⟩⟩

/-- C5: for a direction other than `up` and `down`, `Migrations` returns the nil
slice and the error `invalid direction '<direction>', must be 'up' or 'down'`, and
makes no call into the file system; the right-hand side does not mention `fs`, so
the outcome is the same for every file system. -/
theorem Migrations_invalid_direction (fs : FS) (dir direction : String)
    (hup : direction ≠ "up") (hdown : direction ≠ "down") :
    Migrations fs dir direction =
      { migrations := none
        err := some (.errorString
          ("invalid direction '" ++ direction ++ "', must be 'up' or 'down'"))
        calls := [] } := by
  simp [Migrations, hup, hdown]

/-- C5 for the directions `UP`, the empty string and `up` followed by a blank, on
a file system where nothing can be read and on one where the directory exists. -/
theorem Migrations_invalid_direction_witness :
    Migrations unreadableFS "migrations" "UP" =
        ⟨none, some (.errorString "invalid direction 'UP', must be 'up' or 'down'"), []⟩ ∧
      Migrations exampleFS "migrations" "" =
        ⟨none, some (.errorString "invalid direction '', must be 'up' or 'down'"), []⟩ ∧
      Migrations exampleFS "migrations" "up " =
        ⟨none, some (.errorString "invalid direction 'up ', must be 'up' or 'down'"), []⟩ :=
  ⟨Migrations_invalid_direction unreadableFS "migrations" "UP" (by decide) (by decide),
    Migrations_invalid_direction exampleFS "migrations" "" (by decide) (by decide),
    Migrations_invalid_direction exampleFS "migrations" "up " (by decide) (by decide)⟩

/-- C6: for `d` one of `up`, `down`: a nil error never comes with an empty slice;
a readable directory without entries gives `no files found in directory '<dir>'`;
a readable directory with entries, none of them a non-directory whose name contains
`d ++ ".sql"`, gives `no files found with ending '<d>.sql'`; and the two errors
differ, whatever `dir` and `d` are. -/
theorem Migrations_not_found (fs : FS) (dir d : String) (hd : d = "up" ∨ d = "down") :
    ((Migrations fs dir d).err = none → (Migrations fs dir d).migrations.len ≠ 0) ∧
    (fs.ReadDir dir = .ok [] →
      Migrations fs dir d =
        { migrations := none
          err := some (.errorString ("no files found in directory '" ++ dir ++ "'"))
          calls := [.ReadDir dir] }) ∧
    (∀ files, fs.ReadDir dir = .ok files → files ≠ [] →
      (∀ e ∈ files, matchesDirection d e = false) →
      Migrations fs dir d =
        { migrations := none
          err := some (.errorString ("no files found with ending '" ++ d ++ ".sql'"))
          calls := [.ReadDir dir] }) ∧
    GoError.errorString ("no files found in directory '" ++ dir ++ "'") ≠
      GoError.errorString ("no files found with ending '" ++ d ++ ".sql'") := by
  refine ⟨?_, ?_, ?_, ?_⟩
  · cases hread : fs.ReadDir dir with
    | error err => simp [Migrations, hd, hread]
    | ok files =>
      by_cases hlen : files.length = 0
      · simp [Migrations, hd, hread, hlen]
      · have hM : Migrations fs dir d =
            Migrations.loop fs dir d files none [.ReadDir dir] := by
          simp [Migrations, hd, hread, hlen]
        rw [hM]
        exact Migrations_loop_success_nonempty fs dir d files none _
  · intro hread
    simp [Migrations, hd, hread]
  · intro files hread hne hno
    have hlen : files.length ≠ 0 := by simpa using hne
    have hM : Migrations fs dir d = Migrations.loop fs dir d files none [.ReadDir dir] := by
      simp [Migrations, hd, hread, hlen]
    rw [hM]
    exact Migrations_loop_no_match fs dir d files _ hno
  · intro h
    have h2 := congrArg (fun e => e.Error.data.get? 15) h
    simp [GoError.Error, String.data_append] at h2

/-- C6 on `exampleFS` for `up`: the directory `empty` and the directory `downonly`,
which holds a `down` file and a sub-directory named `old.up.sql`. -/
theorem Migrations_not_found_witness :
    Migrations exampleFS "empty" "up" =
        ⟨none, some (.errorString "no files found in directory 'empty'"),
          [.ReadDir "empty"]⟩ ∧
      Migrations exampleFS "downonly" "up" =
        ⟨none, some (.errorString "no files found with ending 'up.sql'"),
          [.ReadDir "downonly"]⟩ :=
  ⟨(Migrations_not_found exampleFS "empty" "up" (Or.inl rfl)).2.1 rfl,
    (Migrations_not_found exampleFS "downonly" "up" (Or.inl rfl)).2.2.1
      [⟨"001.down.sql", false⟩, ⟨"old.up.sql", true⟩] rfl (by decide) (by decide)⟩

/-! ## `Query` -/

theorem storeThrough_replicate (row : List GoAny) :
    storeThrough (List.replicate row.length GoAny.nil) row = row := by
  induction row with
  | nil => rfl
  | cons r row ih => simp [List.replicate_succ, storeThrough, ih]

theorem Query_fill_of_not_mem (vals : List GoAny) (k : String) :
    ∀ (names : List String) (i : Nat) (m : GoMap),
      k ∉ names → Query.fill vals i names m k = m k := by
  intro names
  induction names with
  | nil => intro i m _; rfl
  | cons name rest ih =>
    intro i m hk
    have hne : k ≠ name := fun h => hk (h ▸ List.mem_cons_self _ _)
    have hrest : k ∉ rest := fun h => hk (List.mem_cons_of_mem _ h)
    simp [Query.fill, ih _ _ hrest, GoMap.set, hne]

theorem Query_fill_keys (vals : List GoAny) (k : String) :
    ∀ (names : List String) (i : Nat) (m : GoMap),
      Query.fill vals i names m k ≠ none ↔ (k ∈ names ∨ m k ≠ none) := by
  intro names
  induction names with
  | nil => intro i m; simp [Query.fill]
  | cons name rest ih =>
    intro i m
    simp only [Query.fill, ih, List.mem_cons]
    by_cases hk : k = name
    · simp [GoMap.set, hk]
    · simp [GoMap.set, hk]

theorem Query_fill_last (vals : List GoAny) (k : String) :
    ∀ (names : List String) (i : Nat) (m : GoMap) (j : Nat),
      names[j]? = some k → (∀ j2, j < j2 → names[j2]? ≠ some k) →
      Query.fill vals i names m k = some (vals.getD (i + j) .nil) := by
  intro names
  induction names with
  | nil => intro i m j h; simp at h
  | cons name rest ih =>
    intro i m j hj hlast
    cases j with
    | zero =>
      have hname : name = k := by simpa using hj
      have hrest : k ∉ rest := by
        intro hmem
        obtain ⟨n, hn, hget⟩ := List.getElem_of_mem hmem
        have := hlast (n + 1) (Nat.succ_pos n)
        simp [List.getElem?_eq_getElem hn, hget] at this
      simp [Query.fill, Query_fill_of_not_mem vals k rest _ _ hrest, GoMap.set, hname]
    | succ j =>
      have hj2 : rest[j]? = some k := by simpa using hj
      have hlast2 : ∀ j2, j < j2 → rest[j2]? ≠ some k := by
        intro j2 hlt
        have := hlast (j2 + 1) (Nat.succ_lt_succ hlt)
        simpa using this
      have := ih (i + 1) (m.set name (vals.getD i .nil)) j hj2 hlast2
      simp only [Query.fill, this]
      congr 2
      omega

theorem Query_loop_ok (cs : List String) :
    ∀ (data : List (List GoAny)) (results : Slice GoMap),
      (∀ r ∈ data, r.length = cs.length) →
      (Query.loop cs none (data.map .ok) results).2 = none ∧
        (data = [] → (Query.loop cs none (data.map .ok) results).1 = results) ∧
        (Query.loop cs none (data.map .ok) results).1.elems =
          results.elems ++ data.map (fun row => Query.fill row 0 cs GoMap.empty) := by
  intro data
  induction data with
  | nil => intro results _; simp [Query.loop]
  | cons row rest ih =>
    intro results hwidth
    have hrow : row.length = cs.length := hwidth row (List.mem_cons_self _ _)
    have hrest : ∀ r ∈ rest, r.length = cs.length :=
      fun r hr => hwidth r (List.mem_cons_of_mem _ hr)
    have hstore : storeThrough (List.replicate cs.length GoAny.nil) row = row := by
      rw [← hrow]; exact storeThrough_replicate row
    obtain ⟨h1, _, h3⟩ := ih (results.append (Query.fill row 0 cs GoMap.empty)) hrest
    simp only [List.map_cons, Query.loop, hstore]
    refine ⟨h1, by simp, ?_⟩
    rw [h3]
    simp [Slice.append, Slice.elems]

/-- C7: when `QueryContext` succeeds with columns `cs`, rows `data` of `|cs|` values
each whose scans all succeed, and a nil `rows.Err()`, `Query` returns a nil error
and one map per row, in row order; the keys of the map of a row are exactly the
names in `cs`, and a name maps to the value of the row at the last position where
the name occurs in `cs`. With no row the returned slice has no element (it is the
nil slice). -/
theorem Query_returns_row_maps (db : Postgres) (conn : SqlDB) (ctx : Context)
    (query : String) (vars : List GoAny) (rows : Rows) (cs : List String)
    (data : List (List GoAny))
    (hconn : db.Conn = some conn) (hquery : conn.QueryContext ctx query vars = .ok rows)
    (hcols : rows.Columns = .ok cs) (hscans : rows.scans = data.map .ok)
    (hwidth : ∀ r ∈ data, r.length = cs.length) (herr : rows.Err = none) :
    ∃ results : Slice GoMap,
      db.Query ctx query vars = .returns (results, none) ∧
      results.elems.length = data.length ∧
      (∀ (i : Nat) (row : List GoAny), data[i]? = some row →
        ∃ m : GoMap, results.elems[i]? = some m ∧
          (∀ k, m k ≠ none ↔ k ∈ cs) ∧
          (∀ (j : Nat) (k : String), cs[j]? = some k → (∀ j2, j < j2 → cs[j2]? ≠ some k) →
            ∃ v, row[j]? = some v ∧ m k = some v)) ∧
      (data = [] → results = none ∧ results.elems = []) := by
  obtain ⟨h1, h2, h3⟩ := Query_loop_ok cs data none hwidth
  have h3e : (Query.loop cs none (data.map .ok) none).1.elems =
      data.map (fun row => Query.fill row 0 cs GoMap.empty) := by
    rw [h3]; simp [Slice.elems]
  refine ⟨(Query.loop cs none (data.map .ok) none).1, ?_, ?_, ?_, ?_⟩
  · simp only [Postgres.Query, hconn, hquery, hcols, hscans, herr]
    exact congrArg Outcome.returns (Prod.ext rfl h1)
  · rw [h3e]; simp
  · intro i row hi
    refine ⟨Query.fill row 0 cs GoMap.empty, ?_, ?_, ?_⟩
    · rw [h3e]; simp [hi]
    · intro k
      rw [Query_fill_keys]
      simp [GoMap.empty]
    · intro j k hj hlast
      have hjlt : j < cs.length := by
        by_contra hge
        rw [List.getElem?_eq_none (Nat.le_of_not_lt hge)] at hj
        simp at hj
      have hrow : row.length = cs.length := hwidth row (List.getElem?_mem hi)
      have hjrow : j < row.length := by omega
      refine ⟨row[j], List.getElem?_eq_getElem hjrow, ?_⟩
      rw [Query_fill_last row k cs 0 GoMap.empty j hj hlast]
      simp [List.getD_eq_getElem?_getD, List.getElem?_eq_getElem hjrow]
  · intro hdata
    refine ⟨h2 hdata, ?_⟩
    rw [h3e, hdata]; rfl

/-- C7 on `catalogDB`: two rows of three columns with the name `datname` at the
first and the last position, and a query without rows. -/
theorem Query_returns_row_maps_witness :
    (catalogHandle.Query Context.Background
        "SELECT datname, oid, upper(datname) AS datname FROM pg_database" []).maps.map
        (fun m => (m "datname", m "oid", m "encoding")) =
      [(some (.bytes "POSTGRES"), some (.int64 5), none),
        (some (.bytes "TEMPLATE1"), some (.int64 1), none)] ∧
    (∃ results : Slice GoMap,
      catalogHandle.Query Context.Background
          "SELECT datname, oid, upper(datname) AS datname FROM pg_database" [] =
        .returns (results, none) ∧ results.elems.length = 2) ∧
    (∃ results : Slice GoMap,
      catalogHandle.Query Context.Background "SELECT 1 WHERE false" [] =
        .returns (results, none) ∧ results.elems = []) :=
  ⟨by decide,
    (Query_returns_row_maps catalogHandle catalogDB Context.Background
      "SELECT datname, oid, upper(datname) AS datname FROM pg_database" []
      { Columns := .ok ["datname", "oid", "datname"]
        scans := [.ok [.bytes "postgres", .int64 5, .bytes "POSTGRES"],
          .ok [.bytes "template1", .int64 1, .bytes "TEMPLATE1"]]
        Err := none }
      ["datname", "oid", "datname"]
      [[.bytes "postgres", .int64 5, .bytes "POSTGRES"],
        [.bytes "template1", .int64 1, .bytes "TEMPLATE1"]]
      rfl rfl rfl rfl (by decide) rfl).imp (fun _ h => ⟨h.1, h.2.1⟩),
    (Query_returns_row_maps catalogHandle catalogDB Context.Background
      "SELECT 1 WHERE false" []
      { Columns := .ok ["datname", "oid", "datname"], scans := [], Err := none }
      ["datname", "oid", "datname"] [] rfl rfl rfl rfl (by decide) rfl).imp
      (fun _ h => ⟨h.1, (h.2.2.2 rfl).2⟩)⟩

end Pg
